import Mathlib

/-!
Verification of the schema-inference and stream-emission engine of
`tap_redash.py` (a minimal Singer tap for a single Redash query), via a
shallow embedding of the relevant Python functions into Lean.

The embedding covers:
* `Redash._singer_type_for_value` — mapping a runtime value to a Singer
  JSON-schema primitive type tag (`singerTypeForValue`);
* `Redash._infer_properties`      — bounded-scan union-type inference
  (`inferPropertiesWith` / `inferProperties`);
* `Redash.generate_schema_wrapper` — assembling the simplified schema
  wrapper (`generateSchemaWrapper`);
* `Redash.output_to_stream`       — the Singer schema/records emission
  (`outputToStream`), modelled as a trace of output events;
* `main`                          — mode dispatch, supplied-schema
  validation and the final flush (`mainRun`), likewise as a trace.

Python dictionaries are modelled as association lists with string keys;
Python `set` accumulation is modelled as duplicate-free insertion into a
list, which is faithful because the only observations the program makes
of a type set are emptiness and its `sorted()` image.
-/

/-- A JSON-like Python runtime value as the tap sees it.  `vother` stands
for a value of any runtime type not otherwise recognised (the fallback
branch of `_singer_type_for_value`). Booleans and numbers are separate
constructors: a Python object is a `bool` or a non-bool `int`/`float`,
never both, so the `isinstance(value, bool)`-before-`int` check in the
source corresponds to the distinct `vbool` / `vint` / `vfloat` cases. -/
inductive Value where
  | vnull
  | vbool (b : Bool)
  | vint (n : Int)
  | vfloat (q : ℚ)
  | vstr (s : String)
  | vdict (fields : List (String × Value))
  | varr (items : List Value)
  | vother
deriving Repr

/-- Embeds `Redash._singer_type_for_value`: map a value to a Singer primitive type
tag, `none` for Python `None` (the source returns `None` there). -/
def singerTypeForValue : Value → Option String
  | .vnull => none
  | .vbool _ => some "boolean"
  | .vint _ => some "number"
  | .vfloat _ => some "number"
  | .vstr _ => some "string"
  | .vdict _ => some "object"
  | .varr _ => some "array"
  | .vother => some "string"

/-- First-match lookup in an association list, i.e. Python `d[k]` /
`k in d` on a dict rendered as an association list. -/
def assocFind (k : String) : List (String × α) → Option α
  | [] => none
  | (k', v) :: rest => if k' = k then some v else assocFind k rest

/-- Python `set.add`: insert a tag unless already present. -/
def insertTag (tag : String) (ts : List String) : List String :=
  if tag ∈ ts then ts else ts ++ [tag]

/-- The body of the inner loop of `_infer_properties`:
`if k not in union: union[k] = set()` followed by
`if t is not None: union[k].add(t)`. -/
def addField (union : List (String × List String)) (kv : String × Value) :
    List (String × List String) :=
  let union' := if union.any (fun p => p.1 = kv.1) then union else union ++ [(kv.1, [])]
  match singerTypeForValue kv.2 with
  | none => union'
  | some tag => union'.map (fun p => (p.1, if p.1 = kv.1 then insertTag tag p.2 else p.2))

/-- One iteration of the outer loop of `_infer_properties`: a row that is
not a dict is skipped (`continue`), otherwise every field of the row is
accumulated. -/
def scanRow (union : List (String × List String)) (row : Value) :
    List (String × List String) :=
  match row with
  | .vdict fields => fields.foldl addField union
  | _ => union

/-- The rows actually scanned: the first `min maxScan rows.length` rows,
mirroring `MAX_SCAN = min(100, len(sample_rows))` and the subsequent
`for i in range(MAX_SCAN)` indexing loop. -/
def scannedRows (maxScan : Nat) (rows : List Value) : List Value :=
  rows.take (min maxScan rows.length)

/-- Python `sorted` on a list of strings (lexicographic ascending). -/
def sortStrings (l : List String) : List String :=
  l.insertionSort (· ≤ ·)

/-- The final per-field type list of `_infer_properties`:
`["null"] + sorted(list(type_set)) if type_set else ["null", "string"]`. -/
def finalizeTypes (ts : List String) : List String :=
  if ts.isEmpty then ["null", "string"] else "null" :: sortStrings ts

/-- Embeds `Redash._infer_properties` with the scan bound as a parameter (the
source fixes it to `100`; see `inferProperties`). -/
def inferPropertiesWith (maxScan : Nat) (rows : List Value) :
    List (String × List String) :=
  let union := (scannedRows maxScan rows).foldl scanRow []
  union.map (fun p => (p.1, finalizeTypes p.2))

/-- Embeds `Redash._infer_properties` as in the source, scan bound `100`. -/
def inferProperties (rows : List Value) : List (String × List String) :=
  inferPropertiesWith 100 rows

/-- Python truthiness of a JSON-like value (`if args.properties:` etc.). -/
def pyTruthy : Value → Bool
  | .vnull => false
  | .vbool b => b
  | .vint n => n != 0
  | .vfloat q => q != 0
  | .vstr s => s != ""
  | .vdict l => !l.isEmpty
  | .varr l => !l.isEmpty
  | .vother => true

/-- Dict lookup on a `Value`: `some` only when the value is a dict holding
the key (Python `d[k]` raises otherwise, `k in d` is `isSome`). -/
def dictLookup (v : Value) (k : String) : Option Value :=
  match v with
  | .vdict fields => assocFind k fields
  | _ => none

/-- Embeds `key_props = self._config.get("key_properties", [])` followed by
`if not isinstance(key_props, list): key_props = []`: the key-property
list taken from the configuration. -/
def resolveKeyProps (cfgKeyProps : Option Value) : List Value :=
  match cfgKeyProps with
  | none => []
  | some (.varr l) => l
  | some _ => []

/-- Embeds `Redash.generate_schema_wrapper`: the simplified Singer schema wrapper
`{"stream": ..., "schema": {...}, "key_properties": [...]}` built from the
fetched rows, the configuration's `key_properties` entry and the query id. -/
def generateSchemaWrapper (rows : List Value) (cfgKeyProps : Option Value)
    (queryId : String) : Value :=
  let properties : List (String × List String) :=
    if rows.isEmpty then [] else inferProperties rows
  Value.vdict
    [("stream", Value.vstr queryId),
     ("schema", Value.vdict
       [("type", Value.vstr "object"),
        ("properties", Value.vdict
          (properties.map fun p => (p.1, Value.vdict [("type", Value.varr (p.2.map Value.vstr))]))),
        ("additionalProperties", Value.vbool false)]),
     ("key_properties", Value.varr (resolveKeyProps cfgKeyProps))]

/-- An observable output action of the program. -/
inductive Event where
  | printJson (doc : Value)
  | writeSchema (stream : Value) (schema : Value) (keyProps : Value)
  | writeRecords (stream : Value) (rows : List Value)
  | flush
deriving Repr

/-- Embeds `Redash.output_to_stream` as a trace of Singer messages: the schema
message (`singer.write_schema`) followed, when the fetched row list is
non-empty, by one records message (`singer.write_records`) carrying all
rows.  `none` models the `KeyError` raised by `schema_wrapper["schema"]`
when the wrapper lacks a schema body. -/
def outputToStream (streamName : Value) (schemaWrapper : Value)
    (rows : List Value) : Option (List Event) :=
  match dictLookup schemaWrapper "schema" with
  | none => none
  | some schema =>
    let keyProps := (dictLookup schemaWrapper "key_properties").getD (Value.varr [])
    some (Event.writeSchema streamName schema keyProps ::
      if rows.isEmpty then [] else [Event.writeRecords streamName rows])

/-- The acceptance test of `main` on a (present) supplied schema wrapper:
`isinstance(schema_wrapper, dict)`, `"stream" in schema_wrapper` and
`"schema" in schema_wrapper`. -/
def validArtifact (v : Value) : Bool :=
  (match v with | .vdict _ => true | _ => false)
    && (dictLookup v "stream").isSome && (dictLookup v "schema").isSome

/-- The schema wrapper `main` settles on in sync mode:
`args.properties if args.properties else rdash.generate_schema_wrapper()`
followed by regeneration when the result is not a dict with both a
`"stream"` and a `"schema"` key. -/
def resolveWrapper (rows : List Value) (cfgKeyProps : Option Value)
    (queryId : String) (supplied : Option Value) : Value :=
  let w := match supplied with
    | some p => if pyTruthy p then p else generateSchemaWrapper rows cfgKeyProps queryId
    | none => generateSchemaWrapper rows cfgKeyProps queryId
  if validArtifact w then w else generateSchemaWrapper rows cfgKeyProps queryId

/-- Embeds `main` as a trace of output events.  Discovery mode prints the wrapper
(`do_discover`) and returns at once; sync mode resolves the wrapper, emits
via `output_to_stream` and then calls `sys.stdout.flush()`. -/
def mainRun (rows : List Value) (cfgKeyProps : Option Value) (queryId : String)
    (discover : Bool) (supplied : Option Value) : Option (List Event) :=
  if discover then
    some [Event.printJson (generateSchemaWrapper rows cfgKeyProps queryId)]
  else
    let w := resolveWrapper rows cfgKeyProps queryId supplied
    match dictLookup w "stream" with
    | none => none
    | some stream =>
      match outputToStream stream w rows with
      | none => none
      | some msgs => some (msgs ++ [Event.flush])

/-- Whether a value is a Python dict, i.e. `isinstance(row, dict)`. -/
def isDictRow : Value → Bool
  | .vdict _ => true
  | _ => false

/-- Whether a value is a Python list, i.e. `isinstance(v, list)`. -/
def isVArr : Value → Bool
  | .varr _ => true
  | _ => false

/-- Specification-side predicate: the field `f` is present in the row
(which must be a field-to-value mapping for that). -/
def rowHasField (f : String) : Value → Bool
  | .vdict fields => fields.any (fun p => p.1 = f)
  | _ => false

/-- Specification-side function: the type tags of the non-null values the
field `f` takes in one row (empty for a malformed row, and a `null` value
contributes no tag). -/
def rowFieldTags (f : String) : Value → List String
  | .vdict fields => fields.filterMap (fun p => if p.1 = f then singerTypeForValue p.2 else none)
  | _ => []

/-- Specification-side function: the type tags of the non-null values of
the field `f` across a row sequence, in scan order and with multiplicity. -/
def fieldTags (f : String) (rows : List Value) : List String :=
  rows.foldr (fun r acc => rowFieldTags f r ++ acc) []

/-- Accumulate a batch of tags into a type set (list without duplicates),
one `insertTag` per tag. -/
def addTags (ts newTags : List String) : List String :=
  newTags.foldl (fun acc tag => insertTag tag acc) ts

/-- Whether an output event is the flush of the output sink. -/
def isFlushEvent : Event → Bool
  | .flush => true
  | _ => false

/-- Whether an output event is a Singer schema message. -/
def isSchemaEvent : Event → Bool
  | .writeSchema _ _ _ => true
  | _ => false

/-- Whether an output event is a Singer records message. -/
def isRecordsEvent : Event → Bool
  | .writeRecords _ _ => true
  | _ => false

/-- A 101-row sequence whose single malformed (non-dict) row sits inside
the scanned prefix while a distinctive well-formed row sits just beyond
the scan window, at index 100. -/
def rowsWithMalformed : List Value :=
  Value.vstr "bad" ::
    (List.replicate 99 (Value.vdict [("a", Value.vint 1)]) ++
      [Value.vdict [("b", Value.vint 2)]])

/-- `rowsWithMalformed` with its malformed rows removed (the only one sits
in the scanned prefix): now 100 rows long, so the row carrying field `b`
has moved into the scan window. -/
def rowsMalformedRemoved : List Value :=
  List.replicate 99 (Value.vdict [("a", Value.vint 1)]) ++
    [Value.vdict [("b", Value.vint 2)]]

/-- Apply an optional tag to a type set: the effect of
`if t is not None: union[k].add(t)` on the set of the field at hand. -/
def applyTag (t : Option String) (ts : List String) : List String :=
  match t with
  | none => ts
  | some tag => insertTag tag ts

theorem assocFind_append (k : String) (l₁ l₂ : List (String × α)) :
    assocFind k (l₁ ++ l₂) =
      match assocFind k l₁ with
      | some v => some v
      | none => assocFind k l₂ := by
  induction l₁ with
  | nil => simp [assocFind]
  | cons p rest ih =>
    obtain ⟨k', v⟩ := p
    by_cases h : k' = k <;> simp [assocFind, h, ih]

theorem any_key_eq_isSome (k : String) (l : List (String × α)) :
    (l.any fun p => p.1 = k) = (assocFind k l).isSome := by
  induction l with
  | nil => simp [assocFind]
  | cons p rest ih =>
    obtain ⟨k', v⟩ := p
    by_cases h : k' = k <;> simp [assocFind, h, ih]

theorem assocFind_map_ite (k₀ k tag : String) (l : List (String × List String)) :
    assocFind k (l.map fun p => (p.1, if p.1 = k₀ then insertTag tag p.2 else p.2)) =
      (assocFind k l).map (fun ts => if k = k₀ then insertTag tag ts else ts) := by
  induction l with
  | nil => simp [assocFind]
  | cons p rest ih =>
    obtain ⟨k', v⟩ := p
    by_cases h : k' = k <;> simp [assocFind, h, ih]

theorem assocFind_map_value (k : String) (l : List (String × β)) (g : β → γ) :
    assocFind k (l.map fun p => (p.1, g p.2)) = (assocFind k l).map g := by
  induction l with
  | nil => simp [assocFind]
  | cons p rest ih =>
    obtain ⟨k', v⟩ := p
    by_cases h : k' = k <;> simp [assocFind, h, ih]

theorem assocFind_addField_self (u : List (String × List String)) (k : String) (v : Value) :
    assocFind k (addField u (k, v)) =
      some (applyTag (singerTypeForValue v) ((assocFind k u).getD [])) := by
  unfold addField
  rw [any_key_eq_isSome]
  cases hu : assocFind k u with
  | none =>
    cases ht : singerTypeForValue v with
    | none => simp [applyTag, assocFind_append, hu, assocFind]
    | some tag =>
      simp only [Option.isSome_none, Bool.false_eq_true, if_false, applyTag, Option.getD_none]
      rw [assocFind_map_ite]
      simp [assocFind_append, hu, assocFind]
  | some ts =>
    cases ht : singerTypeForValue v with
    | none => simp [applyTag, hu]
    | some tag =>
      simp only [Option.isSome_some, if_true, applyTag, Option.getD_some]
      rw [assocFind_map_ite]
      simp [hu]

theorem assocFind_addField_other (u : List (String × List String)) (k k' : String)
    (v : Value) (h : k' ≠ k) :
    assocFind k' (addField u (k, v)) = assocFind k' u := by
  unfold addField
  cases ht : singerTypeForValue v with
  | none =>
    split
    · rfl
    · simp [assocFind_append, assocFind, Ne.symm h]
      cases assocFind k' u <;> simp
  | some tag =>
    rw [assocFind_map_ite]
    simp only [if_neg h]
    split
    · simp
    · simp [assocFind_append, assocFind, Ne.symm h]
      cases assocFind k' u <;> simp

theorem addTags_nil (ts : List String) : addTags ts [] = ts := rfl

theorem addTags_cons (ts : List String) (tag : String) (l : List String) :
    addTags ts (tag :: l) = addTags (insertTag tag ts) l := rfl

theorem addTags_append (ts l₁ l₂ : List String) :
    addTags ts (l₁ ++ l₂) = addTags (addTags ts l₁) l₂ :=
  List.foldl_append _ _ _ _

theorem addTags_applyTag (ts : List String) (t : Option String) (l : List String) :
    addTags ts (t.toList ++ l) = addTags (applyTag t ts) l := by
  cases t <;> rfl

theorem mem_insertTag {a tag : String} {ts : List String} :
    a ∈ insertTag tag ts ↔ a ∈ ts ∨ a = tag := by
  unfold insertTag
  split
  · rename_i h
    constructor
    · exact Or.inl
    · rintro (h' | rfl)
      · exact h'
      · exact h
  · simp

theorem nodup_insertTag {tag : String} {ts : List String} (h : ts.Nodup) :
    (insertTag tag ts).Nodup := by
  unfold insertTag
  split
  · exact h
  · rename_i hmem
    simpa [List.nodup_append, h] using hmem

theorem mem_addTags {a : String} (l ts : List String) :
    a ∈ addTags ts l ↔ a ∈ ts ∨ a ∈ l := by
  induction l generalizing ts with
  | nil => simp [addTags]
  | cons t rest ih =>
    rw [addTags_cons, ih]
    rw [mem_insertTag]
    simp [or_assoc]

theorem nodup_addTags (l ts : List String) (h : ts.Nodup) : (addTags ts l).Nodup := by
  induction l generalizing ts with
  | nil => exact h
  | cons t rest ih =>
    rw [addTags_cons]
    exact ih _ (nodup_insertTag h)

theorem filterMap_key_nil (fields : List (String × Value)) (f : String)
    (h : (fields.any fun p => p.1 = f) = false) :
    (fields.filterMap fun p => if p.1 = f then singerTypeForValue p.2 else none) = [] := by
  induction fields with
  | nil => rfl
  | cons p rest ih =>
    simp only [List.any_cons, Bool.or_eq_false_iff] at h
    obtain ⟨h1, h2⟩ := h
    simp only [List.filterMap_cons]
    rw [if_neg (by simpa using h1)]
    exact ih h2

theorem assocFind_foldl_addField (fields : List (String × Value)) (f : String)
    (u : List (String × List String)) :
    assocFind f (fields.foldl addField u) =
      if (fields.any fun p => p.1 = f) || (assocFind f u).isSome then
        some (addTags ((assocFind f u).getD [])
          (fields.filterMap fun p => if p.1 = f then singerTypeForValue p.2 else none))
      else none := by
  induction fields generalizing u with
  | nil =>
    cases hu : assocFind f u <;> simp [hu, addTags_nil]
  | cons kv rest ih =>
    obtain ⟨k, v⟩ := kv
    rw [List.foldl_cons, ih]
    by_cases hk : k = f
    · subst hk
      rw [assocFind_addField_self]
      cases ht : singerTypeForValue v <;>
        simp [ht, applyTag, addTags_cons, List.filterMap_cons]
    · rw [assocFind_addField_other _ _ _ _ (Ne.symm hk)]
      simp [hk, List.filterMap_cons]
      rw [decide_eq_false hk, Bool.false_or]

theorem fieldTags_cons (f : String) (r : Value) (rows : List Value) :
    fieldTags f (r :: rows) = rowFieldTags f r ++ fieldTags f rows := rfl

theorem assocFind_foldl_scanRow (rows : List Value) (f : String)
    (u : List (String × List String)) :
    assocFind f (rows.foldl scanRow u) =
      if rows.any (rowHasField f) || (assocFind f u).isSome then
        some (addTags ((assocFind f u).getD []) (fieldTags f rows))
      else none := by
  induction rows generalizing u with
  | nil => cases hu : assocFind f u <;> simp [hu, fieldTags, addTags_nil]
  | cons r rest ih =>
    rw [List.foldl_cons, ih, List.any_cons, fieldTags_cons]
    cases r with
    | vdict fields =>
      have hscan : scanRow u (Value.vdict fields) = fields.foldl addField u := rfl
      rw [hscan, assocFind_foldl_addField]
      have hrow : rowHasField f (Value.vdict fields) = (fields.any fun p => p.1 = f) := rfl
      have htags : rowFieldTags f (Value.vdict fields) =
          (fields.filterMap fun p => if p.1 = f then singerTypeForValue p.2 else none) := rfl
      rw [hrow, htags]
      cases hA : (fields.any fun p => p.1 = f) with
      | true => simp [addTags_append]
      | false =>
        cases hu : assocFind f u with
        | some ts => simp [hu, addTags_append]
        | none => simp [hu, filterMap_key_nil fields f hA]
    | vnull => simp [scanRow, rowHasField, rowFieldTags]
    | vbool b => simp [scanRow, rowHasField, rowFieldTags]
    | vint n => simp [scanRow, rowHasField, rowFieldTags]
    | vfloat q => simp [scanRow, rowHasField, rowFieldTags]
    | vstr s => simp [scanRow, rowHasField, rowFieldTags]
    | varr items => simp [scanRow, rowHasField, rowFieldTags]
    | vother => simp [scanRow, rowHasField, rowFieldTags]

theorem assocFind_inferPropertiesWith (maxScan : Nat) (rows : List Value) (f : String) :
    assocFind f (inferPropertiesWith maxScan rows) =
      if (scannedRows maxScan rows).any (rowHasField f) then
        some (finalizeTypes (addTags [] (fieldTags f (scannedRows maxScan rows))))
      else none := by
  unfold inferPropertiesWith
  rw [assocFind_map_value, assocFind_foldl_scanRow]
  have h0 : assocFind f ([] : List (String × List String)) = none := rfl
  rw [h0]
  cases (scannedRows maxScan rows).any (rowHasField f) <;> simp

theorem any_eq_of_perm {l₁ l₂ : List α} (h : l₁.Perm l₂) (p : α → Bool) :
    l₁.any p = l₂.any p := by
  rw [Bool.eq_iff_iff]
  simp only [List.any_eq_true]
  constructor <;> rintro ⟨x, hx, hpx⟩
  · exact ⟨x, h.mem_iff.mp hx, hpx⟩
  · exact ⟨x, h.mem_iff.mpr hx, hpx⟩

theorem sortStrings_sorted (l : List String) : (sortStrings l).Sorted (· ≤ ·) :=
  List.sorted_insertionSort _ l

theorem sortStrings_perm (l : List String) : (sortStrings l).Perm l :=
  List.perm_insertionSort _ l

theorem sortStrings_eq_of_perm {l₁ l₂ : List String} (h : l₁.Perm l₂) :
    sortStrings l₁ = sortStrings l₂ :=
  List.eq_of_perm_of_sorted ((sortStrings_perm l₁).trans (h.trans (sortStrings_perm l₂).symm))
    (sortStrings_sorted l₁) (sortStrings_sorted l₂)

theorem finalizeTypes_eq_of_perm {l₁ l₂ : List String} (h : l₁.Perm l₂) :
    finalizeTypes l₁ = finalizeTypes l₂ := by
  have hlen := h.length_eq
  have he : l₁.isEmpty = l₂.isEmpty := by
    cases l₁ <;> cases l₂ <;> first | rfl | simp at hlen
  unfold finalizeTypes
  rw [he, sortStrings_eq_of_perm h]

theorem mem_fieldTags {a f : String} {rows : List Value} :
    a ∈ fieldTags f rows ↔ ∃ r ∈ rows, a ∈ rowFieldTags f r := by
  induction rows with
  | nil => simp [fieldTags]
  | cons r rest ih => simp [fieldTags_cons, ih]

theorem scannedRows_eq_take (maxScan : Nat) (rows : List Value) :
    scannedRows maxScan rows = rows.take maxScan := by
  unfold scannedRows
  by_cases h : maxScan ≤ rows.length
  · rw [min_eq_left h]
  · have h' : rows.length ≤ maxScan := le_of_not_le h
    rw [min_eq_right h', List.take_length, List.take_of_length_le h']

theorem inferPropertiesWith_congr {maxScan : Nat} {rows rows' : List Value}
    (h : scannedRows maxScan rows = scannedRows maxScan rows') :
    inferPropertiesWith maxScan rows = inferPropertiesWith maxScan rows' := by
  unfold inferPropertiesWith
  rw [h]

theorem foldl_scanRow_filter (l : List Value) (u : List (String × List String)) :
    (l.filter isDictRow).foldl scanRow u = l.foldl scanRow u := by
  induction l generalizing u with
  | nil => rfl
  | cons r rest ih =>
    cases r with
    | vdict fields => simp [List.filter_cons, isDictRow, List.foldl_cons, ih]
    | vnull => simpa [List.filter_cons, isDictRow, List.foldl_cons, scanRow] using ih u
    | vbool b => simpa [List.filter_cons, isDictRow, List.foldl_cons, scanRow] using ih u
    | vint n => simpa [List.filter_cons, isDictRow, List.foldl_cons, scanRow] using ih u
    | vfloat q => simpa [List.filter_cons, isDictRow, List.foldl_cons, scanRow] using ih u
    | vstr s => simpa [List.filter_cons, isDictRow, List.foldl_cons, scanRow] using ih u
    | varr items => simpa [List.filter_cons, isDictRow, List.foldl_cons, scanRow] using ih u
    | vother => simpa [List.filter_cons, isDictRow, List.foldl_cons, scanRow] using ih u

theorem validArtifact_generate (rows : List Value) (cfgKeyProps : Option Value)
    (queryId : String) : validArtifact (generateSchemaWrapper rows cfgKeyProps queryId) = true := rfl

theorem dictLookup_generate_stream (rows : List Value) (cfgKeyProps : Option Value)
    (queryId : String) :
    dictLookup (generateSchemaWrapper rows cfgKeyProps queryId) "stream" =
      some (Value.vstr queryId) := rfl

theorem pyTruthy_false_invalid {p : Value} (h : pyTruthy p = false) :
    validArtifact p = false := by
  cases p <;> simp_all [pyTruthy, validArtifact, dictLookup]
  simp [assocFind]

/-- C4: the type-tag function classifies values by the fixed precedence:
booleans are tagged "boolean" and never "number"; integral and fractional
numerics are tagged "number"; then "string" for text, "object" for nested
mappings, "array" for sequences; any other value shape falls back to
"string". -/
theorem C4_typeTagPrecedence :
    (∀ b : Bool, singerTypeForValue (Value.vbool b) = some "boolean") ∧
    (∀ b : Bool, (singerTypeForValue (Value.vbool b) == some "number") = false) ∧
    (∀ n : Int, singerTypeForValue (Value.vint n) = some "number") ∧
    (∀ q : ℚ, singerTypeForValue (Value.vfloat q) = some "number") ∧
    (∀ s : String, singerTypeForValue (Value.vstr s) = some "string") ∧
    (∀ fields : List (String × Value),
      singerTypeForValue (Value.vdict fields) = some "object") ∧
    (∀ items : List Value, singerTypeForValue (Value.varr items) = some "array") ∧
    singerTypeForValue Value.vother = some "string" :=
  ⟨fun _ => rfl, fun _ => rfl, fun _ => rfl, fun _ => rfl, fun _ => rfl,
   fun _ => rfl, fun _ => rfl, rfl⟩

/-- C8: for the empty row sequence, inference yields an empty properties
mapping, the generated wrapper embeds a schema with no fields, and the
result is a valid (accepted, non-error) artifact. -/
theorem C8_emptyRows (cfgKeyProps : Option Value) (queryId : String) :
    inferProperties [] = [] ∧
    dictLookup (generateSchemaWrapper [] cfgKeyProps queryId) "schema" =
      some (Value.vdict
        [("type", Value.vstr "object"), ("properties", Value.vdict []),
         ("additionalProperties", Value.vbool false)]) ∧
    validArtifact (generateSchemaWrapper [] cfgKeyProps queryId) = true :=
  ⟨rfl, rfl, rfl⟩

/-- C5: inference scans only the first `min maxScan (length rows)` rows
(the source's bound is `100`): the result is unchanged by appending
arbitrary rows after a scan-bound-sized prefix, and is determined by the
first `maxScan` rows. -/
theorem C5_boundedScan (maxScan : Nat) (rows extra : List Value)
    (h : maxScan ≤ rows.length) :
    inferPropertiesWith maxScan (rows ++ extra) = inferPropertiesWith maxScan rows ∧
    inferPropertiesWith maxScan rows = inferPropertiesWith maxScan (rows.take maxScan) ∧
    inferProperties rows = inferPropertiesWith 100 rows := by
  refine ⟨?_, ?_, rfl⟩
  · apply inferPropertiesWith_congr
    rw [scannedRows_eq_take, scannedRows_eq_take, List.take_append_of_le_length h]
  · apply inferPropertiesWith_congr
    rw [scannedRows_eq_take, scannedRows_eq_take, List.take_take, min_self]

/-- C5 witness: a concrete instance of the bounded-scan theorem, scan
bound `1` over a one-row list with one appended row. -/
theorem C5_boundedScan_witness :
    1 ≤ ([Value.vdict [("a", Value.vint 1)]] : List Value).length ∧
    inferPropertiesWith 1 ([Value.vdict [("a", Value.vint 1)]] ++ [Value.vother]) =
      inferPropertiesWith 1 [Value.vdict [("a", Value.vint 1)]] :=
  ⟨by decide,
   (C5_boundedScan 1 [Value.vdict [("a", Value.vint 1)]] [Value.vother] (by decide)).1⟩

/-- C6: a field whose accumulated type set after the scan is empty (it was
observed, but only with null values) gets the default declared type list
`["null", "string"]`. -/
theorem C6_allNullFallback (rows : List Value) (f : String)
    (hpresent : (scannedRows 100 rows).any (rowHasField f) = true)
    (hnull : fieldTags f (scannedRows 100 rows) = []) :
    assocFind f (inferProperties rows) = some ["null", "string"] := by
  unfold inferProperties
  rw [assocFind_inferPropertiesWith, if_pos hpresent, hnull]
  rfl

/-- C6 witness: the all-null fallback on the concrete row `{"a": null}`. -/
theorem C6_allNullFallback_witness :
    assocFind "a" (inferProperties [Value.vdict [("a", Value.vnull)]]) =
      some ["null", "string"] :=
  C6_allNullFallback [Value.vdict [("a", Value.vnull)]] "a" rfl rfl

/-- C7: every invocation of the sync emitter that finds a schema body
writes exactly one schema message, the schema message comes first, and a
records message carrying the full row sequence is written if and only if
the row sequence is non-empty. -/
theorem C7_emitterProtocol (streamName schemaWrapper sch : Value) (rows : List Value)
    (h : dictLookup schemaWrapper "schema" = some sch) :
    ∃ msgs, outputToStream streamName schemaWrapper rows = some msgs ∧
      msgs = Event.writeSchema streamName sch
          ((dictLookup schemaWrapper "key_properties").getD (Value.varr [])) ::
          (if rows.isEmpty then [] else [Event.writeRecords streamName rows]) ∧
      msgs.countP isSchemaEvent = 1 ∧
      msgs.head? = some (Event.writeSchema streamName sch
          ((dictLookup schemaWrapper "key_properties").getD (Value.varr []))) ∧
      msgs.countP isRecordsEvent = (if rows.isEmpty then 0 else 1) := by
  have hmsgs : outputToStream streamName schemaWrapper rows =
      some (Event.writeSchema streamName sch
          ((dictLookup schemaWrapper "key_properties").getD (Value.varr [])) ::
          (if rows.isEmpty then [] else [Event.writeRecords streamName rows])) := by
    unfold outputToStream
    rw [h]
  refine ⟨_, hmsgs, rfl, ?_, rfl, ?_⟩
  · cases rows <;> simp [List.countP_cons, isSchemaEvent]
  · cases rows <;> simp [List.countP_cons, isRecordsEvent]

/-- C7 witness: the emitter protocol on a concrete wrapper and a concrete
non-empty row list. -/
theorem C7_emitterProtocol_witness :
    ∃ msgs, outputToStream (Value.vstr "q") (Value.vdict [("schema", Value.vbool true)])
        [Value.vint 5] = some msgs ∧
      msgs = Event.writeSchema (Value.vstr "q") (Value.vbool true) (Value.varr []) ::
          [Event.writeRecords (Value.vstr "q") [Value.vint 5]] ∧
      msgs.countP isSchemaEvent = 1 ∧
      msgs.head? = some (Event.writeSchema (Value.vstr "q") (Value.vbool true)
        (Value.varr [])) ∧
      msgs.countP isRecordsEvent = 1 :=
  C7_emitterProtocol (Value.vstr "q") (Value.vdict [("schema", Value.vbool true)])
    (Value.vbool true) [Value.vint 5] rfl

theorem validArtifact_resolveWrapper (rows : List Value) (cfgKeyProps : Option Value)
    (queryId : String) (supplied : Option Value) :
    validArtifact (resolveWrapper rows cfgKeyProps queryId supplied) = true := by
  unfold resolveWrapper
  cases supplied with
  | none => simp [validArtifact_generate]
  | some p =>
    cases hv : validArtifact
        (if pyTruthy p = true then p else generateSchemaWrapper rows cfgKeyProps queryId)
    · simp [hv, validArtifact_generate]
    · simp [hv]

/-- C3: in sync mode a supplied schema artifact is used for emission if
and only if it is a dict containing both a stream identifier and a schema
body; otherwise it is discarded whole and the wrapper used equals the one
freshly generated from the fetched rows, exactly as when no artifact is
supplied at all. -/
theorem C3_suppliedSchemaValidation (rows : List Value) (cfgKeyProps : Option Value)
    (queryId : String) (p : Value) :
    resolveWrapper rows cfgKeyProps queryId (some p) =
      (if validArtifact p then p else generateSchemaWrapper rows cfgKeyProps queryId) ∧
    resolveWrapper rows cfgKeyProps queryId none =
      generateSchemaWrapper rows cfgKeyProps queryId ∧
    mainRun rows cfgKeyProps queryId false (some p) =
      mainRun rows cfgKeyProps queryId false
        (if validArtifact p then some p else none) := by
  have h2 : resolveWrapper rows cfgKeyProps queryId none =
      generateSchemaWrapper rows cfgKeyProps queryId := by
    unfold resolveWrapper
    simp [validArtifact_generate]
  have h1 : resolveWrapper rows cfgKeyProps queryId (some p) =
      (if validArtifact p then p else generateSchemaWrapper rows cfgKeyProps queryId) := by
    unfold resolveWrapper
    cases ht : pyTruthy p
    · simp only [ht, Bool.false_eq_true, if_false]
      rw [pyTruthy_false_invalid ht]
      simp [validArtifact_generate]
    · simp only [ht, if_true]
  have hres : resolveWrapper rows cfgKeyProps queryId (some p) =
      resolveWrapper rows cfgKeyProps queryId
        (if validArtifact p then some p else none) := by
    cases hv : validArtifact p
    · simp only [hv, Bool.false_eq_true, if_false] at h1 ⊢
      rw [h1, h2]
    · simp [hv]
  refine ⟨h1, h2, ?_⟩
  unfold mainRun
  rw [hres]

/-- C10: a missing or non-list `key_properties` configuration entry
yields an empty key-property list in the generated wrapper, and emitting
from a wrapper that lacks a `key_properties` key writes the schema
message with an empty key-property list instead of failing. -/
theorem C10_keyPropsDefaults (rows : List Value) (queryId : String)
    (v schemaWrapper sch streamName : Value) :
    dictLookup (generateSchemaWrapper rows none queryId) "key_properties" =
      some (Value.varr []) ∧
    (isVArr v = false →
      dictLookup (generateSchemaWrapper rows (some v) queryId) "key_properties" =
        some (Value.varr [])) ∧
    (dictLookup schemaWrapper "schema" = some sch →
      dictLookup schemaWrapper "key_properties" = none →
      outputToStream streamName schemaWrapper rows =
        some (Event.writeSchema streamName sch (Value.varr []) ::
          (if rows.isEmpty then [] else [Event.writeRecords streamName rows]))) := by
  refine ⟨rfl, ?_, ?_⟩
  · intro h
    cases v <;> first | rfl | simp [isVArr] at h
  · intro h1 h2
    unfold outputToStream
    rw [h1, h2]
    rfl

/-- C10 witness: concrete instances — configuration entry absent, a
non-list configuration entry, and emission from a wrapper without a
`key_properties` key. -/
theorem C10_keyPropsDefaults_witness :
    dictLookup (generateSchemaWrapper [] none "q") "key_properties" =
      some (Value.varr []) ∧
    dictLookup (generateSchemaWrapper [] (some (Value.vint 3)) "q") "key_properties" =
      some (Value.varr []) ∧
    outputToStream (Value.vstr "q") (Value.vdict [("schema", Value.vbool true)]) [] =
      some [Event.writeSchema (Value.vstr "q") (Value.vbool true) (Value.varr [])] :=
  ⟨(C10_keyPropsDefaults [] "q" (Value.vint 3)
      (Value.vdict [("schema", Value.vbool true)]) (Value.vbool true) (Value.vstr "q")).1,
   (C10_keyPropsDefaults [] "q" (Value.vint 3)
      (Value.vdict [("schema", Value.vbool true)]) (Value.vbool true) (Value.vstr "q")).2.1 rfl,
   (C10_keyPropsDefaults [] "q" (Value.vint 3)
      (Value.vdict [("schema", Value.vbool true)]) (Value.vbool true) (Value.vstr "q")).2.2 rfl rfl⟩

/-- C2 counterexample: in discovery mode the program prints the wrapper
and returns at once — the emitted trace contains no flush event, so an
explicit flush is not performed on every exit path. -/
theorem C2_flush_cex :
    mainRun [] none "1" true none =
      some [Event.printJson (generateSchemaWrapper [] none "1")] ∧
    List.countP isFlushEvent [Event.printJson (generateSchemaWrapper [] none "1")] = 0 :=
  ⟨rfl, rfl⟩

/-- C2 (amended): on the sync exit path the output trace ends with an
explicit flush performed after the final message; the discovery-mode
early return performs no explicit flush. -/
theorem C2_flushOnSyncPathOnly (rows : List Value) (cfgKeyProps : Option Value)
    (queryId : String) (supplied : Option Value) :
    (∃ msgs, mainRun rows cfgKeyProps queryId false supplied = some (msgs ++ [Event.flush]) ∧
      msgs.countP isFlushEvent = 0) ∧
    (∃ tr, mainRun rows cfgKeyProps queryId true supplied = some tr ∧
      tr.countP isFlushEvent = 0) := by
  constructor
  · have hw := validArtifact_resolveWrapper rows cfgKeyProps queryId supplied
    unfold validArtifact at hw
    simp only [Bool.and_eq_true] at hw
    obtain ⟨⟨-, hs0⟩, hsch0⟩ := hw
    obtain ⟨s, hs⟩ : ∃ s, dictLookup (resolveWrapper rows cfgKeyProps queryId supplied)
        "stream" = some s := by
      cases hfind : dictLookup (resolveWrapper rows cfgKeyProps queryId supplied) "stream" with
      | some s => exact ⟨s, rfl⟩
      | none => rw [hfind] at hs0; simp at hs0
    obtain ⟨sch, hsch⟩ : ∃ sch, dictLookup (resolveWrapper rows cfgKeyProps queryId supplied)
        "schema" = some sch := by
      cases hfind : dictLookup (resolveWrapper rows cfgKeyProps queryId supplied) "schema" with
      | some sch => exact ⟨sch, rfl⟩
      | none => rw [hfind] at hsch0; simp at hsch0
    have hmain : mainRun rows cfgKeyProps queryId false supplied =
        some ((Event.writeSchema s sch
            ((dictLookup (resolveWrapper rows cfgKeyProps queryId supplied)
              "key_properties").getD (Value.varr [])) ::
          (if rows.isEmpty then [] else [Event.writeRecords s rows])) ++ [Event.flush]) := by
      unfold mainRun outputToStream
      simp [hs, hsch]
    refine ⟨_, hmain, ?_⟩
    cases rows <;> simp [List.countP_cons, isFlushEvent]
  · exact ⟨[Event.printJson (generateSchemaWrapper rows cfgKeyProps queryId)], rfl, rfl⟩

set_option maxRecDepth 10000 in
/-- C9 counterexample: removing the malformed row from the scanned prefix
of a 101-row sequence shifts the row at index 100 into the scan window,
so the inference result over the cleaned sequence differs: field `b` is
absent from the original result and present in the cleaned one. -/
theorem C9_malformed_cex :
    inferProperties rowsWithMalformed ≠ inferProperties rowsMalformedRemoved ∧
    assocFind "b" (inferProperties rowsWithMalformed) = none ∧
    assocFind "b" (inferProperties rowsMalformedRemoved) = some ["null", "number"] := by
  refine ⟨?_, ?_, ?_⟩ <;> decide

/-- C9 (amended): a scanned row that is not a field-to-value mapping is
skipped silently — it contributes nothing and does not abort inference —
and the inference result equals the result of inference over the scanned
prefix with its malformed rows removed.  (Removing them from the sequence
itself can instead pull later rows into the scan window.) -/
theorem C9_malformedSkipped (maxScan : Nat) (rows : List Value) :
    inferPropertiesWith maxScan rows =
      inferPropertiesWith maxScan ((scannedRows maxScan rows).filter isDictRow) ∧
    inferProperties rows = inferProperties ((scannedRows 100 rows).filter isDictRow) := by
  have key : ∀ m : Nat, inferPropertiesWith m rows =
      inferPropertiesWith m ((scannedRows m rows).filter isDictRow) := by
    intro m
    have hlen : ((scannedRows m rows).filter isDictRow).length ≤ m := by
      refine le_trans (List.length_filter_le _ _) ?_
      rw [scannedRows_eq_take, List.length_take]
      exact inf_le_left
    have hscan : scannedRows m ((scannedRows m rows).filter isDictRow) =
        (scannedRows m rows).filter isDictRow := by
      rw [scannedRows_eq_take]
      exact List.take_of_length_le hlen
    unfold inferPropertiesWith
    rw [hscan, foldl_scanRow_filter]
  exact ⟨key maxScan, key 100⟩

/-- C1 counterexample: for a field whose scanned values are all null, the
claimed formula gives declared types `{"null"} ∪ ∅`, i.e. `["null"]`, but
the code produces the `["null", "string"]` fallback. -/
theorem C1_typeUnion_cex :
    assocFind "a" (inferProperties [Value.vdict [("a", Value.vnull)]]) =
      some ["null", "string"] ∧
    fieldTags "a" (scannedRows 100 [Value.vdict [("a", Value.vnull)]]) = [] ∧
    some (["null", "string"] : List String) ≠ some ("null" :: sortStrings []) := by
  refine ⟨rfl, rfl, ?_⟩
  intro h
  simp [sortStrings, List.insertionSort] at h

/-- C1 (amended): for every field name `f` appearing in at least one
scanned row with at least one non-null value, the inferred declared type
list for `f` is `"null"` followed by exactly the set of type tags of the
non-null values of `f` across the scanned rows, without duplicates, in
lexicographic ascending order, and independent of the order of the
scanned rows.  (A field observed only as null instead gets the
`["null", "string"]` fallback, per C6.) -/
theorem C1_typeUnion (rows : List Value) (f : String)
    (hpresent : (scannedRows 100 rows).any (rowHasField f) = true)
    (hnonnull : fieldTags f (scannedRows 100 rows) ≠ []) :
    ∃ l, assocFind f (inferProperties rows) = some ("null" :: l) ∧
      (∀ a, a ∈ l ↔ a ∈ fieldTags f (scannedRows 100 rows)) ∧
      l.Sorted (· ≤ ·) ∧ l.Nodup ∧
      ∀ rows', (scannedRows 100 rows').Perm (scannedRows 100 rows) →
        assocFind f (inferProperties rows') = assocFind f (inferProperties rows) := by
  have hT : addTags [] (fieldTags f (scannedRows 100 rows)) ≠ [] := by
    intro h0
    apply hnonnull
    cases hft : fieldTags f (scannedRows 100 rows) with
    | nil => rfl
    | cons t ts =>
      exfalso
      have hmem : t ∈ addTags [] (fieldTags f (scannedRows 100 rows)) :=
        (mem_addTags _ _).mpr (Or.inr (by rw [hft]; exact List.mem_cons_self t ts))
      rw [h0] at hmem
      exact absurd hmem (List.not_mem_nil t)
  have hfin : finalizeTypes (addTags [] (fieldTags f (scannedRows 100 rows))) =
      "null" :: sortStrings (addTags [] (fieldTags f (scannedRows 100 rows))) := by
    unfold finalizeTypes
    rw [if_neg (by simpa [List.isEmpty_iff] using hT)]
  have hmain : assocFind f (inferProperties rows) =
      some (finalizeTypes (addTags [] (fieldTags f (scannedRows 100 rows)))) := by
    unfold inferProperties
    rw [assocFind_inferPropertiesWith, if_pos hpresent]
  refine ⟨sortStrings (addTags [] (fieldTags f (scannedRows 100 rows))),
    by rw [hmain, hfin], ?_, sortStrings_sorted _, ?_, ?_⟩
  · intro a
    rw [(sortStrings_perm _).mem_iff, mem_addTags]
    simp
  · exact ((sortStrings_perm _).nodup_iff).mpr (nodup_addTags _ _ List.nodup_nil)
  · intro rows' hperm
    unfold inferProperties
    rw [assocFind_inferPropertiesWith, assocFind_inferPropertiesWith]
    have hany : (scannedRows 100 rows').any (rowHasField f) = true := by
      rw [any_eq_of_perm hperm]
      exact hpresent
    rw [if_pos hany, if_pos hpresent]
    have hsetperm : (addTags [] (fieldTags f (scannedRows 100 rows'))).Perm
        (addTags [] (fieldTags f (scannedRows 100 rows))) := by
      rw [List.perm_ext_iff_of_nodup (nodup_addTags _ _ List.nodup_nil)
        (nodup_addTags _ _ List.nodup_nil)]
      intro a
      rw [mem_addTags, mem_addTags, mem_fieldTags, mem_fieldTags]
      constructor
      · rintro (h | ⟨r, hr, ha⟩)
        · exact absurd h (List.not_mem_nil a)
        · exact Or.inr ⟨r, hperm.mem_iff.mp hr, ha⟩
      · rintro (h | ⟨r, hr, ha⟩)
        · exact absurd h (List.not_mem_nil a)
        · exact Or.inr ⟨r, hperm.mem_iff.mpr hr, ha⟩
    rw [finalizeTypes_eq_of_perm hsetperm]

/-- C1 witness: the amended type-union theorem applied to the concrete
row `{"a": 1}`. -/
theorem C1_typeUnion_witness :
    ∃ l, assocFind "a" (inferProperties [Value.vdict [("a", Value.vint 1)]]) =
        some ("null" :: l) ∧
      (∀ a, a ∈ l ↔ a ∈ fieldTags "a" (scannedRows 100 [Value.vdict [("a", Value.vint 1)]])) ∧
      l.Sorted (· ≤ ·) ∧ l.Nodup ∧
      ∀ rows', (scannedRows 100 rows').Perm
          (scannedRows 100 [Value.vdict [("a", Value.vint 1)]]) →
        assocFind "a" (inferProperties rows') =
          assocFind "a" (inferProperties [Value.vdict [("a", Value.vint 1)]]) :=
  C1_typeUnion [Value.vdict [("a", Value.vint 1)]] "a" rfl (by decide)
